import Mathlib

/-!
Shallow embedding of the event-listing application's core logic:
the normalization/validation layer of `src/database/event.model.ts`
(slugify, normalizeDate, normalizeTime, the pre-save hook) and the
HTTP handlers of `src/app/api/event/route.ts`, together with theorems
settling the specification's claims about them.

JavaScript strings are modelled as Lean `String`; machine `number`
values reachable here are small nonnegative integers (parsed digit
groups) modelled as `Nat`, and epoch timestamps as `Int` milliseconds.
Fallible code (`throw`) is modelled with `Except String`.
-/

namespace EventApp

/-- JavaScript whitespace (the `\s` class and what `String.prototype.trim`
removes): tab, LF, VT, FF, CR, space, NBSP, and the Unicode space and
line separators plus the BOM. -/
def jsWhitespace (c : Char) : Bool :=
  c = ' ' ∨ c = '\t' ∨ c = '\n' ∨ c = '\r' ∨
  c = (Char.ofNat 0x0B) ∨ c = (Char.ofNat 0x0C) ∨ c = (Char.ofNat 0xA0) ∨
  c = (Char.ofNat 0x1680) ∨
  (Char.ofNat 0x2000 ≤ c ∧ c ≤ Char.ofNat 0x200A) ∨
  c = (Char.ofNat 0x2028) ∨ c = (Char.ofNat 0x2029) ∨
  c = (Char.ofNat 0x202F) ∨ c = (Char.ofNat 0x205F) ∨
  c = (Char.ofNat 0x3000) ∨ c = (Char.ofNat 0xFEFF)

/-- Model of JavaScript `String.prototype.trim`: drop `jsWhitespace`
from both ends. -/
def jsTrim (s : String) : String :=
  String.mk ((((s.toList.dropWhile jsWhitespace).reverse.dropWhile jsWhitespace).reverse))

/-- ASCII decimal digit, the `\d` class of a JavaScript regex. -/
def digitChar (c : Char) : Bool := '0' ≤ c ∧ c ≤ '9'

/-- Numeric value of a digit character. -/
def digitVal (c : Char) : Nat := c.toNat - '0'.toNat

/-- Model of `String(n).padStart(2, '0')` for the values reachable here
(n ≤ 99). -/
def pad2 (n : Nat) : String :=
  if n < 10 then "0" ++ toString n else toString n

/-- Match of the anchored regex `^(\d{1,2}):(\d{2})(?::\d{2})?$` from
`normalizeTime`, returning the parsed (hour, minute) capture values.
The four accepted shapes are distinguished by length. -/
def colonMatch (l : List Char) : Option (Nat × Nat) :=
  match l with
  | [a, ':', b, c] =>
    if digitChar a ∧ digitChar b ∧ digitChar c then
      some (digitVal a, 10 * digitVal b + digitVal c)
    else none
  | [a, a2, ':', b, c] =>
    if digitChar a ∧ digitChar a2 ∧ digitChar b ∧ digitChar c then
      some (10 * digitVal a + digitVal a2, 10 * digitVal b + digitVal c)
    else none
  | [a, ':', b, c, ':', s1, s2] =>
    if digitChar a ∧ digitChar b ∧ digitChar c ∧ digitChar s1 ∧ digitChar s2 then
      some (digitVal a, 10 * digitVal b + digitVal c)
    else none
  | [a, a2, ':', b, c, ':', s1, s2] =>
    if digitChar a ∧ digitChar a2 ∧ digitChar b ∧ digitChar c ∧ digitChar s1 ∧ digitChar s2 then
      some (10 * digitVal a + digitVal a2, 10 * digitVal b + digitVal c)
    else none
  | _ => none

/-- Match of the `(am|pm)$` tail after optional whitespace (`\s*`),
returning `true` for pm. -/
def ampmTail (l : List Char) : Option Bool :=
  match l.dropWhile jsWhitespace with
  | ['a', 'm'] => some false
  | ['p', 'm'] => some true
  | _ => none

/-- Match of the anchored regex `^(\d{1,2})\s*(am|pm)$` (the second
alternative `^(\d{1,2})(am|pm)$` of the source is subsumed by it),
returning the parsed hour and the pm flag. -/
def ampmMatch (l : List Char) : Option (Nat × Bool) :=
  match l with
  | c1 :: c2 :: rest =>
    if digitChar c1 then
      if digitChar c2 then
        (ampmTail rest).map (fun pm => (10 * digitVal c1 + digitVal c2, pm))
      else
        (ampmTail (c2 :: rest)).map (fun pm => (digitVal c1, pm))
    else none
  | _ => none

/-- Model of `normalizeTime` from `src/database/event.model.ts`:
trim and lowercase the input, try the colon form, then the am/pm form,
else fail. `Char.toLower` agrees with JavaScript `toLowerCase` on every
character that can contribute to either regex match. -/
def normalizeTime (value : String) : Except String String :=
  let v := (jsTrim value).toList.map Char.toLower
  match colonMatch v with
  | some (h, m) =>
    if h > 23 ∨ m > 59 then Except.error "Invalid time value"
    else Except.ok (pad2 h ++ ":" ++ pad2 m)
  | none =>
    match ampmMatch v with
    | some (h, pm) =>
      if h < 1 ∨ h > 12 then Except.error "Invalid time hour"
      else
        let h2 := if pm ∧ h ≠ 12 then h + 12 else if ¬ pm ∧ h = 12 then 0 else h
        Except.ok (pad2 h2 ++ ":00")
    | none => Except.error "Invalid time format"

/-- Conversion of a day count from the epoch into UTC calendar fields
(year, 1-indexed month, day), the civil-from-days computation that
`Date.prototype.getUTCFullYear` / `getUTCMonth` / `getUTCDate` perform
on a timestamp. The era is taken with floor division (`Int.fdiv`), so
the identity holds on the full proleptic Gregorian line, including days
before 0000-03-01; the remaining divisions act on nonnegative values. -/
def civilFromDays (z0 : Int) : Int × Nat × Nat :=
  let z := z0 + 719468
  let era : Int := Int.fdiv z 146097
  let doe : Int := z - era * 146097
  let yoe : Int := (doe - doe / 1460 + doe / 36524 - doe / 146096) / 365
  let y : Int := yoe + era * 400
  let doy : Int := doe - (365 * yoe + yoe / 4 - yoe / 100)
  let mp : Int := (5 * doy + 2) / 153
  let d : Int := doy - (153 * mp + 2) / 5 + 1
  let m : Int := mp + (if mp < 10 then 3 else -9)
  (y + (if m ≤ 2 then 1 else 0), m.toNat, d.toNat)

/-- UTC calendar fields of an epoch-milliseconds timestamp: the fields
JavaScript reads with `getUTCFullYear()`, `getUTCMonth() + 1`, and
`getUTCDate()`. -/
def utcYmd (t : Int) : Int × Nat × Nat :=
  civilFromDays (Int.fdiv t 86400000)

/-- The `YYYY-MM-DD` string built in `normalizeDate` from the UTC
fields of a timestamp: `year-month.padStart(2,'0')-day.padStart(2,'0')`. -/
def formatUTC (t : Int) : String :=
  let f := utcYmd t
  toString f.1 ++ "-" ++ pad2 f.2.1 ++ "-" ++ pad2 f.2.2

/-- Model of `normalizeDate` from `src/database/event.model.ts`,
parameterized by the host's `new Date(string)` parser (an external
collaborator): trim the input, parse it to an epoch-milliseconds
timestamp (`none` models a NaN-valued Date), fail on NaN, otherwise
format the UTC calendar fields as `YYYY-MM-DD`. -/
def normalizeDate (parse : String → Option Int) (value : String) : Except String String :=
  match parse (jsTrim value) with
  | none => Except.error "Invalid date format"
  | some t => Except.ok (formatUTC t)

/-- The number of days from the epoch to a civil date, inverse of
`civilFromDays` (era again by floor division); used to build concrete
timestamps for witnesses. -/
def daysFromCivil (y : Int) (m d : Nat) : Int :=
  let y' : Int := if m ≤ 2 then y - 1 else y
  let era : Int := Int.fdiv y' 400
  let yoe : Int := y' - era * 400
  let mp : Int := if 3 ≤ m then (m : Int) - 3 else (m : Int) + 9
  let doy : Int := (153 * mp + 2) / 5 + (d : Int) - 1
  let doe : Int := yoe * 365 + yoe / 4 - yoe / 100 + doy
  era * 146097 + doe - 719468

/-- Character class `[a-z0-9]` of the slugify regexes. -/
def okChar (c : Char) : Bool := ('a' ≤ c ∧ c ≤ 'z') ∨ ('0' ≤ c ∧ c ≤ '9')

/-- Global replacement of the regex `[^a-z0-9]+` by `"-"`: each maximal
run of characters outside `[a-z0-9]` becomes one hyphen. The flag
records whether the scan is inside such a run (its hyphen already
emitted). -/
def squashAux (inRun : Bool) : List Char → List Char
  | [] => []
  | c :: cs =>
    if okChar c then c :: squashAux false cs
    else if inRun then squashAux true cs
    else '-' :: squashAux true cs

/-- The `.replace(/[^a-z0-9]+/g, '-')` step of slugify. -/
def squashRuns (l : List Char) : List Char := squashAux false l

/-- The `.replace(/^-+|-+$/g, '')` step of slugify: strip hyphens from
both ends. -/
def dropEdgeHyphens (l : List Char) : List Char :=
  ((l.dropWhile (fun c => c = '-')).reverse.dropWhile (fun c => c = '-')).reverse

/-- The replacement of the regex `--+` by `-` (global) in slugify:
collapse each run of two or more hyphens into one. -/
def collapse : List Char → List Char
  | [] => []
  | [c] => [c]
  | a :: b :: cs =>
    if a = '-' ∧ b = '-' then collapse (b :: cs) else a :: collapse (b :: cs)

/-- Model of `slugify` from `src/database/event.model.ts`: lowercase,
trim, replace runs of non-alphanumerics with a hyphen, strip edge
hyphens, collapse doubled hyphens. -/
def slugify (input : String) : String :=
  String.mk (collapse (dropEdgeHyphens (squashRuns
    (jsTrim (String.mk (input.toList.map Char.toLower))).toList)))

/-- Boolean check that a character list has no two adjacent hyphens. -/
def noDub : List Char → Bool
  | [] => true
  | [_] => true
  | a :: b :: cs => (!(a = '-' ∧ b = '-')) && noDub (b :: cs)

/-- Boolean check that a list does not start with a hyphen. -/
def headNotHyph : List Char → Bool
  | [] => true
  | c :: _ => c ≠ '-'

/-- Raw event payload handed to `Event.create`, with the fields the
schema declares (slug omitted: it is derived). -/
structure EventInput where
  title : String
  description : String
  overview : String
  image : String
  venue : String
  location : String
  date : String
  time : String
  mode : String
  audience : String
  organizer : String
  agenda : List String
  tags : List String
deriving DecidableEq

/-- Event document as the pre-save hook leaves it. -/
structure EventDoc where
  title : String
  slug : String
  description : String
  overview : String
  image : String
  venue : String
  location : String
  date : String
  time : String
  mode : String
  audience : String
  organizer : String
  agenda : List String
  tags : List String
deriving DecidableEq

/-- The agenda/tags cleanup of the pre-save hook:
`arr.map(s => s.trim()).filter(s => s.length > 0)`. -/
def cleanArr (arr : List String) : List String :=
  (arr.map jsTrim).filter (fun s => decide (0 < s.length))

/-- The `requiredStrings` keys of the pre-save hook paired with the
document values they index, in the declared order. -/
def requiredFields (d : EventDoc) : List (String × String) :=
  [("title", d.title), ("description", d.description), ("overview", d.overview),
   ("image", d.image), ("venue", d.venue), ("location", d.location),
   ("date", d.date), ("time", d.time), ("mode", d.mode),
   ("audience", d.audience), ("organizer", d.organizer)]

/-- The error message thrown for an empty required string field. -/
def requiredErrMsg (name : String) : String :=
  "Field \"" ++ name ++ "\" is required and cannot be empty"

/-- The `for (const key of requiredStrings)` loop of the pre-save hook:
throw on the first field whose trimmed value is empty. -/
def checkRequired : List (String × String) → Except String Unit
  | [] => Except.ok ()
  | (n, v) :: rest =>
    if (jsTrim v).isEmpty then Except.error (requiredErrMsg n)
    else checkRequired rest

/-- The error message thrown when agenda is empty after cleanup. -/
def agendaErrMsg : String := "Agenda is required and cannot be empty"

/-- The error message thrown when tags is empty after cleanup. -/
def tagsErrMsg : String := "Tags are required and cannot be empty"

/-- The re-validation tail of the pre-save hook: the ordered
required-string loop, then the agenda check, then the tags check. -/
def recheck (d : EventDoc) : Except String Unit := do
  checkRequired (requiredFields d)
  if d.agenda.isEmpty then Except.error agendaErrMsg
  else if d.tags.isEmpty then Except.error tagsErrMsg
  else Except.ok ()

/-- Model of the pre-save hook of `EventSchema` for a newly created
document (every set path is modified and no slug exists yet, so the
slug/date/time branches all run): derive the slug, normalize date and
time, clean both arrays, then re-validate. The hook's catch block
rethrows the same message, so it is omitted. -/
def preSaveNew (parse : String → Option Int) (e : EventInput) :
    Except String EventDoc := do
  let date ← normalizeDate parse e.date
  let time ← normalizeTime e.time
  let d : EventDoc :=
    { title := e.title, slug := slugify e.title, description := e.description,
      overview := e.overview, image := e.image, venue := e.venue,
      location := e.location, date := date, time := time, mode := e.mode,
      audience := e.audience, organizer := e.organizer,
      agenda := cleanArr e.agenda, tags := cleanArr e.tags }
  recheck d
  pure d

/-- Modelled from the spec: `Event.create(data)` itself belongs to the
document-database driver, which is not under src/; per the spec it runs
the pre-save hook immediately before the write commits, aborts the
entire write on hook failure, and never persists a partially normalized
record. The store is the list of persisted event documents. -/
def createEvent (parse : String → Option Int) (store : List EventDoc)
    (input : EventInput) : Except String EventDoc × List EventDoc :=
  match preSaveNew parse input with
  | Except.error e => (Except.error e, store)
  | Except.ok d => (Except.ok d, store ++ [d])

/-- Substring test on character lists, the semantics of JavaScript
`String.prototype.includes`. -/
def listIncludes (l sub : List Char) : Bool :=
  match l with
  | [] => sub.isEmpty
  | _ :: tl => sub.isPrefixOf l || listIncludes tl sub

/-- JavaScript `s.includes(sub)`. -/
def strIncludes (s sub : String) : Bool := listIncludes s.toList sub.toList

/-- Response of the POST handler as far as the claims observe it:
status code, the `message` field of the JSON body, and the created
document when present. -/
structure PostResponse where
  status : Nat
  message : String
  event : Option EventDoc
deriving DecidableEq

/-- Model of `POST` from `src/app/api/event/route.ts`, parameterized by
the outcomes of its effectful collaborators: `connect` is
`connectToDatabase()`, `jsonBody` the outcome `request.json()` would
have, `formBody` the outcome form parsing
(`request.formData()` plus `Object.fromEntries`) would have, and
`create` is `Event.create`. Any exception other than form parsing is
caught by the outer catch and mapped to 500. -/
def postHandler {α : Type} (connect : Except String Unit) (contentType : String)
    (jsonBody : Except String α) (formBody : Except String α)
    (create : α → Except String EventDoc) : PostResponse :=
  match connect with
  | Except.error _ => ⟨500, "Internal server error", none⟩
  | Except.ok _ =>
    if strIncludes contentType "application/json" then
      match jsonBody with
      | Except.error _ => ⟨500, "Internal server error", none⟩
      | Except.ok d =>
        match create d with
        | Except.ok ev => ⟨201, "Event created successfully", some ev⟩
        | Except.error _ => ⟨500, "Internal server error", none⟩
    else if strIncludes contentType "multipart/form-data" then
      match formBody with
      | Except.error _ => ⟨400, "Invalid form-data", none⟩
      | Except.ok d =>
        match create d with
        | Except.ok ev => ⟨201, "Event created successfully", some ev⟩
        | Except.error _ => ⟨500, "Internal server error", none⟩
    else ⟨415, "Unsupported Content-Type", none⟩

/-- Response of the get-by-slug handler: status, the document when one
is returned, and the `error` field of the JSON body otherwise. -/
structure GetResponse where
  status : Nat
  event : Option EventDoc
  error : Option String
deriving DecidableEq

/-- The `Event.findOne({ slug })` query over a store of persisted
documents: the first document whose slug equals the parameter. -/
def findOneBySlug (store : List EventDoc) (slug : String) : Option EventDoc :=
  store.find? (fun d => d.slug == slug)

/-- Model of the get-by-slug `GET` handler of
`src/app/api/event/[slug]/route.ts` (bundled at the end of
`src/database/event.model.ts`), parameterized by the connect outcome and
the `findOne` outcome (an `Except.error` models a rejected query). -/
def getBySlugHandler (connect : Except String Unit)
    (lookup : Except String (Option EventDoc)) : GetResponse :=
  match connect with
  | Except.error _ => ⟨500, none, some "Failed to fetch event"⟩
  | Except.ok _ =>
    match lookup with
    | Except.error _ => ⟨500, none, some "Failed to fetch event"⟩
    | Except.ok none => ⟨404, none, some "Event not found"⟩
    | Except.ok (some ev) => ⟨200, some ev, none⟩

/-- Response of the list handler: status, the returned array when
present, and the `error` field otherwise. -/
structure ListResponse where
  status : Nat
  events : Option (List EventDoc)
  error : Option String
deriving DecidableEq

/-- Model of the list `GET` handler of `src/app/api/event/route.ts`,
parameterized by the connect outcome and the outcome of
`Event.find().populate(bookings)` (the join runs inside the fetch). -/
def listHandler (connect : Except String Unit)
    (fetchAll : Except String (List EventDoc)) : ListResponse :=
  match connect with
  | Except.error _ => ⟨500, none, some "Failed to fetch events"⟩
  | Except.ok _ =>
    match fetchAll with
    | Except.error _ => ⟨500, none, some "Failed to fetch events"⟩
    | Except.ok evs => ⟨200, some evs, none⟩

/-- The `globalThis.__mongoose__` cache: the established connection and
the shared in-flight connection promise, each identified by the id of
the connection attempt that produced it (a promise resolves to the
handle of its own attempt). -/
structure MongooseCache where
  conn : Option Nat
  promise : Option Nat
deriving DecidableEq

/-- What one call observes before suspending: either the memoized
handle, or the promise it will await. -/
inductive ConnOutcome where
  | done (h : Nat)
  | awaitPromise (p : Nat)
deriving DecidableEq

/-- Model of the synchronous prefix of `connectToDatabase` from
`src/lib/mongodb.ts` (bundled in `src/database/event.model.ts`): fail if
`MONGODB_URI` is absent (the module-load check), return the memoized
connection if present, otherwise reuse the pending promise or create a
single fresh attempt (`fresh` names the attempt `mongoose.connect`
would start) and publish it in the cache before awaiting. -/
def connectCall (uri : Option String) (fresh : Nat) (c : MongooseCache) :
    Except String (ConnOutcome × MongooseCache) :=
  match uri with
  | none => Except.error "Missing environment variable: MONGODB_URI"
  | some _ =>
    match c.conn with
    | some h => Except.ok (ConnOutcome.done h, c)
    | none =>
      match c.promise with
      | some p => Except.ok (ConnOutcome.awaitPromise p, c)
      | none =>
        Except.ok (ConnOutcome.awaitPromise fresh, { c with promise := some fresh })

/-- Model of the resumption after `await cached.promise`: read the
current shared promise, store its resolved handle in `cached.conn`, and
return it. -/
def connectResume (c : MongooseCache) : Option (Nat × MongooseCache) :=
  match c.promise with
  | some p => some (p, { c with conn := some p })
  | none => none

/-- One interleaved scheduler step: a caller runs the synchronous prefix
of `connectToDatabase` (with the attempt id it would mint), or a
suspended caller resumes after its await. -/
inductive ConnOp where
  | call (fresh : Nat)
  | resume
deriving DecidableEq

/-- Run a sequence of interleaved connection steps, collecting every
handle handed to a caller: a `done h` returns `h` at once, an
`awaitPromise p` returns the resolution of `p` (which resolves to `p`),
and a resume returns the shared promise's resolution. -/
def runConnOps (uri : Option String) : MongooseCache → List ConnOp → List Nat × MongooseCache
  | c, [] => ([], c)
  | c, ConnOp.call fresh :: ops =>
    match connectCall uri fresh c with
    | Except.error _ => runConnOps uri c ops
    | Except.ok (ConnOutcome.done h, c') =>
      let r := runConnOps uri c' ops
      (h :: r.1, r.2)
    | Except.ok (ConnOutcome.awaitPromise p, c') =>
      let r := runConnOps uri c' ops
      (p :: r.1, r.2)
  | c, ConnOp.resume :: ops =>
    match connectResume c with
    | none => runConnOps uri c ops
    | some (h, c') =>
      let r := runConnOps uri c' ops
      (h :: r.1, r.2)

/-- First failing check of an ordered list of (message, violated?)
checks. -/
def firstFail : List (String × Bool) → Option String
  | [] => none
  | (m, b) :: rest => if b then some m else firstFail rest

/-- The pre-save re-check as an ordered list of checks: the eleven
required string fields in declared order with their field-specific
messages, then the agenda check, then the tags check. -/
def checksOf (d : EventDoc) : List (String × Bool) :=
  (requiredFields d).map (fun p => (requiredErrMsg p.1, (jsTrim p.2).isEmpty)) ++
  [(agendaErrMsg, d.agenda.isEmpty), (tagsErrMsg, d.tags.isEmpty)]

/-- Concrete stand-in for the host date parser used by witnesses: it
accepts the three example spellings of 2026-03-05 at UTC midnight
(epoch day 20517) and rejects everything else. -/
def sampleParse : String → Option Int := fun s =>
  if s = "2026-03-05" ∨ s = "March 5, 2026" ∨ s = "2026/03/05" then
    some (20517 * 86400000)
  else none

/-- Concrete stand-in for the host date parser on the region before
0000-03-01: it accepts the ISO spelling "0000-01-01" at UTC midnight of
epoch day -719528 and rejects everything else. -/
def sampleParseAncient : String → Option Int := fun s =>
  if s = "0000-01-01" then some (-719528 * 86400000) else none

/-- Otherwise-valid creation payload with a chosen agenda, used by the
concrete examples. -/
def sampleEvent (agenda : List String) : EventInput :=
  { title := "Cloud Next 2026", description := "desc", overview := "ov",
    image := "img", venue := "ven", location := "loc", date := "2026-03-05",
    time := "9am", mode := "hybrid", audience := "devs", organizer := "org",
    agenda := agenda, tags := ["cloud"] }

/-- C9: the list handler returns 200 with the array of all stored Event
records (with related bookings joined inside the fetch) whenever the
persistence fetch succeeds, and 500 only on persistence failure
(connection or fetch). -/
theorem listHandler_ok_and_500 :
    ∀ (connect : Except String Unit) (fetchAll : Except String (List EventDoc)),
      (∀ evs, connect = Except.ok () → fetchAll = Except.ok evs →
        listHandler connect fetchAll = ⟨200, some evs, none⟩) ∧
      ((listHandler connect fetchAll).status = 500 ↔
        ((∃ e, connect = Except.error e) ∨ ∃ e, fetchAll = Except.error e)) ∧
      ((listHandler connect fetchAll).status = 200 ∨
        (listHandler connect fetchAll).status = 500) := by
  intro connect fetchAll
  rcases connect with e | u
  · refine ⟨by intro evs h; exact absurd h (by simp), ?_, ?_⟩
    · simp [listHandler]
    · simp [listHandler]
  · rcases fetchAll with e | evs
    · refine ⟨by intro evs h h'; exact absurd h' (by simp), ?_, ?_⟩
      · simp [listHandler]
      · simp [listHandler]
    · refine ⟨?_, ?_, ?_⟩
      · intro evs' _ h
        injection h with h
        subst h
        rfl
      · simp [listHandler]
      · simp [listHandler]

/-- C9 witness: a successful fetch of two stored documents yields 200
with exactly that array. -/
theorem listHandler_ok_and_500_witness :
    listHandler (Except.ok ()) (Except.ok ([] : List EventDoc)) = ⟨200, some [], none⟩ :=
  (listHandler_ok_and_500 (Except.ok ()) (Except.ok [])).1 [] rfl rfl

/-- C8: the get-by-slug handler returns 404 with an error message and
no document when no stored event has the requested slug, 200 with the
first matching document (which does carry that slug) when one exists,
and 500 on connection or query failure. -/
theorem getBySlugHandler_spec :
    ∀ (store : List EventDoc) (slug : String),
      ((∀ d ∈ store, d.slug ≠ slug) →
        getBySlugHandler (Except.ok ()) (Except.ok (findOneBySlug store slug)) =
          ⟨404, none, some "Event not found"⟩) ∧
      (∀ d, findOneBySlug store slug = some d →
        d ∈ store ∧ d.slug = slug ∧
        getBySlugHandler (Except.ok ()) (Except.ok (findOneBySlug store slug)) =
          ⟨200, some d, none⟩) ∧
      (∀ e, (getBySlugHandler (Except.error e)
          (Except.ok (findOneBySlug store slug))).status = 500) ∧
      (∀ e, (getBySlugHandler (Except.ok ()) (Except.error e)).status = 500) := by
  intro store slug
  refine ⟨?_, ?_, ?_, ?_⟩
  · intro hnone
    have h : findOneBySlug store slug = none := by
      apply List.find?_eq_none.mpr
      intro d hd
      simpa using hnone d hd
    rw [h]
    rfl
  · intro d hd
    refine ⟨List.mem_of_find?_eq_some hd, ?_, ?_⟩
    · have := List.find?_some hd
      simpa using this
    · rw [hd]
      rfl
  · intro e
    rfl
  · intro e
    rfl

/-- C8 witness: a one-document store queried with a missing slug gives
404, and queried with its own slug gives 200 with the document. -/
theorem getBySlugHandler_spec_witness :
    getBySlugHandler (Except.ok ())
        (Except.ok (findOneBySlug
          [{ title := "T", slug := "t", description := "d", overview := "o",
             image := "i", venue := "v", location := "l", date := "2026-03-05",
             time := "09:00", mode := "m", audience := "a", organizer := "g",
             agenda := ["x"], tags := ["y"] }] "missing")) =
      ⟨404, none, some "Event not found"⟩ :=
  (getBySlugHandler_spec
      [{ title := "T", slug := "t", description := "d", overview := "o",
         image := "i", venue := "v", location := "l", date := "2026-03-05",
         time := "09:00", mode := "m", audience := "a", organizer := "g",
         agenda := ["x"], tags := ["y"] }] "missing").1 (by decide)

/-- C6: with the connection up, the create handler returns 415 exactly
when the content type includes neither JSON nor multipart form data,
400 exactly when it is multipart (and not JSON) and the form payload
fails to parse, 201 with the created document exactly when a parsed
payload is created successfully, and 500 in every other case — in
particular every `Event.create` failure (the pre-save validation path)
and every JSON-body failure map to 500, never to a 4xx, and a failed
connection maps to 500. -/
theorem postHandler_spec {α : Type} :
    ∀ (ct : String) (jsonBody formBody : Except String α)
      (create : α → Except String EventDoc) (r : PostResponse),
      r = postHandler (Except.ok ()) ct jsonBody formBody create →
      ((r.status = 415 ↔
          strIncludes ct "application/json" = false ∧
          strIncludes ct "multipart/form-data" = false) ∧
       (r.status = 400 ↔
          strIncludes ct "application/json" = false ∧
          strIncludes ct "multipart/form-data" = true ∧
          ∃ e, formBody = Except.error e) ∧
       (r.status = 201 ↔
          ∃ d ev, create d = Except.ok ev ∧ r.event = some ev ∧
            ((strIncludes ct "application/json" = true ∧ jsonBody = Except.ok d) ∨
             (strIncludes ct "application/json" = false ∧
              strIncludes ct "multipart/form-data" = true ∧
              formBody = Except.ok d))) ∧
       (∀ d e, strIncludes ct "application/json" = true →
          jsonBody = Except.ok d → create d = Except.error e → r.status = 500) ∧
       (∀ d e, strIncludes ct "application/json" = false →
          strIncludes ct "multipart/form-data" = true →
          formBody = Except.ok d → create d = Except.error e → r.status = 500) ∧
       (∀ e, strIncludes ct "application/json" = true →
          jsonBody = Except.error e → r.status = 500) ∧
       (r.status = 201 ∨ r.status = 400 ∨ r.status = 415 ∨ r.status = 500) ∧
       (∀ e, (postHandler (Except.error e) ct jsonBody formBody create).status = 500)) := by
  intro ct jsonBody formBody create r hr
  subst hr
  by_cases hj : strIncludes ct "application/json" = true
  · rcases hjson : jsonBody with e | d
    · simp [postHandler, hj, hjson]
    · rcases hc : create d with e | ev
      · simp [postHandler, hj, hjson, hc]
      · have hr : postHandler (Except.ok ()) ct (Except.ok d) formBody create =
            ⟨201, "Event created successfully", some ev⟩ := by
          simp [postHandler, hj, hc]
        rw [hr]
        refine ⟨by simp [hj], by simp [hj], ?_, ?_, ?_, ?_, by simp, ?_⟩
        · constructor
          · intro _
            exact ⟨d, ev, hc, rfl, Or.inl ⟨hj, rfl⟩⟩
          · intro _
            rfl
        · intro d' e' _ hd' hc'
          injection hd' with hd'
          subst hd'
          rw [hc] at hc'
          simp at hc'
        · intro d' e' hfalse
          rw [hj] at hfalse
          simp at hfalse
        · intro e' _ hfalse
          simp at hfalse
        · intro e
          rfl
  · have hj' : strIncludes ct "application/json" = false := by
      simpa using hj
    by_cases hm : strIncludes ct "multipart/form-data" = true
    · rcases hform : formBody with e | d
      · simp [postHandler, hj', hm, hform]
      · rcases hc : create d with e | ev
        · simp [postHandler, hj', hm, hform, hc]
        · have hr : postHandler (Except.ok ()) ct jsonBody (Except.ok d) create =
              ⟨201, "Event created successfully", some ev⟩ := by
            simp [postHandler, hj', hm, hc]
          rw [hr]
          refine ⟨by simp [hm], by simp, ?_, ?_, ?_, ?_, by simp, ?_⟩
          · constructor
            · intro _
              exact ⟨d, ev, hc, rfl, Or.inr ⟨hj', hm, rfl⟩⟩
            · intro _
              rfl
          · intro d' e' hfalse
            rw [hj'] at hfalse
            simp at hfalse
          · intro d' e' _ _ hd' hc'
            injection hd' with hd'
            subst hd'
            rw [hc] at hc'
            simp at hc'
          · intro e' hfalse
            rw [hj'] at hfalse
            simp at hfalse
          · intro e
            rfl
    · have hm' : strIncludes ct "multipart/form-data" = false := by
        simpa using hm
      simp [postHandler, hj', hm']

/-- C6 witness: with the connection up, a `text/plain` request is
rejected with 415 regardless of body outcomes. -/
theorem postHandler_spec_witness :
    (postHandler (Except.ok ()) "text/plain"
        (Except.ok ([] : List (String × String)))
        (Except.ok ([] : List (String × String)))
        (fun _ => Except.error "nope")).status = 415 :=
  ((postHandler_spec "text/plain" (Except.ok []) (Except.ok [])
      (fun _ => Except.error "nope") _ rfl).1).mpr ⟨by decide, by decide⟩

/-- C7: a create attempt whose normalization/validation hook fails
surfaces that error from the persistence call and leaves the set of
persisted events unchanged — no document, partial or otherwise, is
stored; a successful attempt appends exactly the fully normalized
document. -/
theorem createEvent_abort_on_failure :
    ∀ (parse : String → Option Int) (store : List EventDoc) (input : EventInput),
      (∀ e, preSaveNew parse input = Except.error e →
        createEvent parse store input = (Except.error e, store)) ∧
      (∀ d, preSaveNew parse input = Except.ok d →
        createEvent parse store input = (Except.ok d, store ++ [d])) := by
  intro parse store input
  constructor
  · intro e he
    unfold createEvent
    rw [he]
  · intro d hd
    unfold createEvent
    rw [hd]

/-- C7 witness: an input with an unparseable time fails the hook and
leaves an empty store empty, with the hook's error surfaced. -/
theorem createEvent_abort_on_failure_witness :
    createEvent (fun _ => some 0) []
        { title := "T", description := "d", overview := "o", image := "i",
          venue := "v", location := "l", date := "x", time := "nonsense",
          mode := "m", audience := "a", organizer := "g",
          agenda := ["x"], tags := ["y"] } =
      (Except.error "Invalid time format", []) :=
  (createEvent_abort_on_failure (fun _ => some 0) []
      { title := "T", description := "d", overview := "o", image := "i",
        venue := "v", location := "l", date := "x", time := "nonsense",
        mode := "m", audience := "a", organizer := "g",
        agenda := ["x"], tags := ["y"] }).1 "Invalid time format" rfl

/-- C2: normalizeDate parses the trimmed input with the underlying date
parser, fails with the invalid-date error exactly when the parser
rejects it, and otherwise formats the timestamp's UTC calendar fields
as zero-padded `YYYY-MM-DD`; any input whose trimmed form parses to a
timestamp with UTC fields (2026, 3, 5) — such as "2026-03-05",
"March 5, 2026", or "2026/03/05" when parseable — yields "2026-03-05". -/
theorem normalizeDate_spec :
    ∀ (parse : String → Option Int) (s : String),
      (normalizeDate parse s = Except.error "Invalid date format" ↔
        parse (jsTrim s) = none) ∧
      (∀ t, parse (jsTrim s) = some t →
        normalizeDate parse s = Except.ok (formatUTC t)) ∧
      (∀ t, parse (jsTrim s) = some t → utcYmd t = (2026, 3, 5) →
        normalizeDate parse s = Except.ok "2026-03-05") := by
  intro parse s
  refine ⟨?_, ?_, ?_⟩
  · cases h : parse (jsTrim s) with
    | none => simp [normalizeDate, h]
    | some t => simp [normalizeDate, h]
  · intro t h
    simp [normalizeDate, h]
  · intro t h hymd
    have hf : formatUTC t = "2026-03-05" := by
      unfold formatUTC
      rw [hymd]
      rfl
    simp [normalizeDate, h, hf]

/-- C2 witness: under the concrete sample parsers, the three example
spellings all normalize to "2026-03-05", "not-a-date" fails with the
invalid-date error, and a timestamp before 0000-03-01 — day -719528,
the parseable "0000-01-01" — is formatted from the UTC fields
(0, 1, 1) exactly as the program formats them. -/
theorem normalizeDate_spec_witness :
    normalizeDate sampleParse "2026-03-05" = Except.ok "2026-03-05" ∧
    normalizeDate sampleParse "March 5, 2026" = Except.ok "2026-03-05" ∧
    normalizeDate sampleParse "2026/03/05" = Except.ok "2026-03-05" ∧
    normalizeDate sampleParse "not-a-date" = Except.error "Invalid date format" ∧
    normalizeDate sampleParseAncient "0000-01-01" = Except.ok "0-01-01" :=
  ⟨(normalizeDate_spec sampleParse "2026-03-05").2.2 (20517 * 86400000)
      (by decide) (by decide),
   (normalizeDate_spec sampleParse "March 5, 2026").2.2 (20517 * 86400000)
      (by decide) (by decide),
   (normalizeDate_spec sampleParse "2026/03/05").2.2 (20517 * 86400000)
      (by decide) (by decide),
   (normalizeDate_spec sampleParse "not-a-date").1.mpr (by decide),
   ((normalizeDate_spec sampleParseAncient "0000-01-01").2.1
      (-719528 * 86400000) (by decide)).trans
    (congrArg Except.ok (by decide))⟩

/-- Once the process's single connection attempt `a` is published in
the shared cache, every interleaved step hands out `a` and preserves
the cache invariant (promise = `a`, connection unset or = `a`). -/
theorem connOps_attempt_inv (u : String) (a : Nat) :
    ∀ (ops : List ConnOp) (c : MongooseCache),
      c.promise = some a → (c.conn = none ∨ c.conn = some a) →
      (∀ h ∈ (runConnOps (some u) c ops).1, h = a) ∧
      (runConnOps (some u) c ops).2.promise = some a := by
  intro ops
  induction ops with
  | nil =>
    intro c hp _
    simpa [runConnOps] using hp
  | cons op ops ih =>
    intro c hp hc
    cases op with
    | call fresh =>
      rcases hc with hc | hc
      · have hstep : connectCall (some u) fresh c =
            Except.ok (ConnOutcome.awaitPromise a, c) := by
          simp [connectCall, hc, hp]
        have hrec := ih c hp (Or.inl hc)
        simp only [runConnOps, hstep]
        refine ⟨?_, hrec.2⟩
        intro h hh
        rcases List.mem_cons.mp hh with rfl | hh
        · rfl
        · exact hrec.1 h hh
      · have hstep : connectCall (some u) fresh c =
            Except.ok (ConnOutcome.done a, c) := by
          simp [connectCall, hc]
        have hrec := ih c hp (Or.inr hc)
        simp only [runConnOps, hstep]
        refine ⟨?_, hrec.2⟩
        intro h hh
        rcases List.mem_cons.mp hh with rfl | hh
        · rfl
        · exact hrec.1 h hh
    | resume =>
      have hstep : connectResume c = some (a, { c with conn := some a }) := by
        simp [connectResume, hp]
      have hrec := ih { c with conn := some a } hp (Or.inr rfl)
      simp only [runConnOps, hstep]
      refine ⟨?_, hrec.2⟩
      intro h hh
      rcases List.mem_cons.mp hh with rfl | hh
      · rfl
      · exact hrec.1 h hh

/-- C10: connectToDatabase fails when the connection-string variable is
absent; with it present, a memoized connection is returned unchanged, a
pending shared attempt is reused by callers that arrive while it is in
flight, only a cache with neither starts the single fresh attempt (and
publishes it before awaiting), resuming memoizes the attempt's handle —
and along every interleaving of calls and resumes from a fresh process,
all handles ever handed out are one and the same attempt. -/
theorem connectToDatabase_memoized :
    (∀ (fresh : Nat) (c : MongooseCache),
      connectCall none fresh c =
        Except.error "Missing environment variable: MONGODB_URI") ∧
    (∀ (u : String) (fresh : Nat) (c : MongooseCache) (h : Nat), c.conn = some h →
      connectCall (some u) fresh c = Except.ok (ConnOutcome.done h, c)) ∧
    (∀ (u : String) (fresh : Nat) (c : MongooseCache) (p : Nat),
      c.conn = none → c.promise = some p →
      connectCall (some u) fresh c = Except.ok (ConnOutcome.awaitPromise p, c)) ∧
    (∀ (u : String) (fresh : Nat) (c : MongooseCache),
      c.conn = none → c.promise = none →
      connectCall (some u) fresh c =
        Except.ok (ConnOutcome.awaitPromise fresh, { c with promise := some fresh })) ∧
    (∀ (c : MongooseCache) (p : Nat), c.promise = some p →
      connectResume c = some (p, { c with conn := some p })) ∧
    (∀ (u : String) (ops : List ConnOp), ∃ a,
      (∀ h ∈ (runConnOps (some u) ⟨none, none⟩ ops).1, h = a) ∧
      ((runConnOps (some u) ⟨none, none⟩ ops).2.promise = none ∨
       (runConnOps (some u) ⟨none, none⟩ ops).2.promise = some a)) := by
  refine ⟨?_, ?_, ?_, ?_, ?_, ?_⟩
  · intro fresh c
    rfl
  · intro u fresh c h hc
    simp [connectCall, hc]
  · intro u fresh c p hc hp
    simp [connectCall, hc, hp]
  · intro u fresh c hc hp
    simp [connectCall, hc, hp]
  · intro c p hp
    simp [connectResume, hp]
  · intro u ops
    induction ops with
    | nil => exact ⟨0, by simp [runConnOps], Or.inl rfl⟩
    | cons op ops ih =>
      cases op with
      | call fresh =>
        have hstep : connectCall (some u) fresh ⟨none, none⟩ =
            Except.ok (ConnOutcome.awaitPromise fresh, ⟨none, some fresh⟩) := rfl
        have hrec := connOps_attempt_inv u fresh ops ⟨none, some fresh⟩ rfl (Or.inl rfl)
        refine ⟨fresh, ?_, Or.inr hrec.2⟩
        simp only [runConnOps, hstep]
        intro h hh
        rcases List.mem_cons.mp hh with rfl | hh
        · rfl
        · exact hrec.1 h hh
      | resume =>
        have hstep : connectResume ⟨none, none⟩ = none := rfl
        simpa only [runConnOps, hstep] using ih

/-- C10 witness: a caller arriving while attempt 5 is still in flight
awaits that same attempt and mints no new one. -/
theorem connectToDatabase_memoized_witness :
    connectCall (some "mongodb://example") 9 ⟨none, some 5⟩ =
      Except.ok (ConnOutcome.awaitPromise 5, ⟨none, some 5⟩) :=
  connectToDatabase_memoized.2.2.1 "mongodb://example" 9 ⟨none, some 5⟩ 5 rfl rfl

/-- The required-string loop fails with `m` exactly when the first
violated check of its ordered check list carries message `m`, and
succeeds exactly when no check is violated. -/
theorem checkRequired_firstFail :
    ∀ (l : List (String × String)) (m : String),
      (checkRequired l = Except.error m ↔
        firstFail (l.map fun p => (requiredErrMsg p.1, (jsTrim p.2).isEmpty)) = some m) ∧
      (checkRequired l = Except.ok () ↔
        firstFail (l.map fun p => (requiredErrMsg p.1, (jsTrim p.2).isEmpty)) = none) := by
  intro l
  induction l with
  | nil =>
    intro m
    constructor
    · simp [checkRequired, firstFail]
    · simp [checkRequired, firstFail]
  | cons p rest ih =>
    intro m
    obtain ⟨n, v⟩ := p
    by_cases hb : (jsTrim v).isEmpty = true
    · constructor
      · simp [checkRequired, firstFail, hb]
      · simp [checkRequired, firstFail, hb]
    · have hb' : (jsTrim v).isEmpty = false := by simpa using hb
      constructor
      · simpa [checkRequired, firstFail, hb'] using (ih m).1
      · simpa [checkRequired, firstFail, hb'] using (ih m).2

/-- A first-failure result `some m` is exactly a decomposition of the
check list into passing checks, then the violated check carrying `m`,
then the rest. -/
theorem firstFail_some_iff :
    ∀ (l : List (String × Bool)) (m : String),
      firstFail l = some m ↔
        ∃ pre rest, l = pre ++ (m, true) :: rest ∧ ∀ p ∈ pre, p.2 = false := by
  intro l
  induction l with
  | nil =>
    intro m
    constructor
    · simp [firstFail]
    · rintro ⟨pre, rest, h, -⟩
      exact absurd h (by simp)
  | cons p l ih =>
    intro m
    obtain ⟨m', b⟩ := p
    cases b with
    | true =>
      constructor
      · intro h
        simp only [firstFail, if_true] at h
        injection h with h
        subst h
        exact ⟨[], l, rfl, by simp⟩
      · rintro ⟨pre, rest, hdecomp, hpre⟩
        cases pre with
        | nil =>
          simp only [List.nil_append, List.cons.injEq] at hdecomp
          obtain ⟨h1, -⟩ := hdecomp
          obtain ⟨h1, -⟩ := Prod.mk.injEq .. ▸ h1
          simp [firstFail, h1]
        | cons q pre =>
          have hq := hpre q (by simp)
          simp only [List.cons_append, List.cons.injEq] at hdecomp
          obtain ⟨h1, -⟩ := hdecomp
          rw [← h1] at hq
          simp at hq
    | false =>
      constructor
      · intro h
        simp only [firstFail, if_false] at h
        obtain ⟨pre, rest, hdecomp, hpre⟩ := (ih m).mp (by simpa [firstFail] using h)
        refine ⟨(m', false) :: pre, rest, by simp [hdecomp], ?_⟩
        intro q hq
        rcases List.mem_cons.mp hq with rfl | hq
        · rfl
        · exact hpre q hq
      · rintro ⟨pre, rest, hdecomp, hpre⟩
        cases pre with
        | nil =>
          simp only [List.nil_append, List.cons.injEq] at hdecomp
          obtain ⟨h1, -⟩ := hdecomp
          have : false = true := congrArg Prod.snd h1
          simp at this
        | cons q pre =>
          simp only [List.cons_append, List.cons.injEq] at hdecomp
          obtain ⟨-, h2⟩ := hdecomp
          have : firstFail l = some m :=
            (ih m).mpr ⟨pre, rest, h2, fun p hp => hpre p (by simp [hp])⟩
          simpa [firstFail] using this

/-- A first-failure result `none` means every check passes. -/
theorem firstFail_none_iff :
    ∀ (l : List (String × Bool)),
      firstFail l = none ↔ ∀ p ∈ l, p.2 = false := by
  intro l
  induction l with
  | nil => simp [firstFail]
  | cons p l ih =>
    obtain ⟨m', b⟩ := p
    cases b with
    | true => simp [firstFail]
    | false => simpa [firstFail] using ih

/-- First failure distributes over list append. -/
theorem firstFail_append :
    ∀ (l1 l2 : List (String × Bool)),
      firstFail (l1 ++ l2) =
        match firstFail l1 with
        | some m => some m
        | none => firstFail l2 := by
  intro l1 l2
  induction l1 with
  | nil => simp [firstFail]
  | cons p l1 ih =>
    obtain ⟨m', b⟩ := p
    cases b with
    | true => simp [firstFail]
    | false => simpa [firstFail] using ih

/-- The pre-save re-check is exactly the first-failure scan of its
ordered check list. -/
theorem recheck_eq_firstFail :
    ∀ (d : EventDoc), recheck d =
      match firstFail (checksOf d) with
      | some m => Except.error m
      | none => Except.ok () := by
  intro d
  cases hreq : checkRequired (requiredFields d) with
  | error e =>
    have h1 : firstFail ((requiredFields d).map fun p =>
        (requiredErrMsg p.1, (jsTrim p.2).isEmpty)) = some e :=
      (checkRequired_firstFail (requiredFields d) e).1.mp hreq
    have h2 : firstFail (checksOf d) = some e := by
      rw [checksOf, firstFail_append, h1]
    rw [h2]
    simp only [recheck, hreq]
    rfl
  | ok u =>
    obtain rfl : u = () := rfl
    have h1 : firstFail ((requiredFields d).map fun p =>
        (requiredErrMsg p.1, (jsTrim p.2).isEmpty)) = none :=
      (checkRequired_firstFail (requiredFields d) "").2.mp hreq
    have h2 : firstFail (checksOf d) =
        firstFail [(agendaErrMsg, d.agenda.isEmpty), (tagsErrMsg, d.tags.isEmpty)] := by
      rw [checksOf, firstFail_append, h1]
    rw [h2]
    cases ha : d.agenda.isEmpty with
    | true =>
      show recheck d = Except.error agendaErrMsg
      simp only [recheck, hreq, ha]
      rfl
    | false =>
      cases ht : d.tags.isEmpty with
      | true =>
        show recheck d = Except.error tagsErrMsg
        simp only [recheck, hreq, ha, ht]
        rfl
      | false =>
        show recheck d = Except.ok ()
        simp only [recheck, hreq, ha, ht]
        rfl

/-- C5: after normalization the pre-save re-check runs the declared
checks in order — title, description, overview, image, venue, location,
date, time, mode, audience, organizer, then agenda, then tags — and
fails with exactly the message of the first violated check (so the
reported field is a deterministic function of the record), succeeding
exactly when every check passes. -/
theorem recheck_first_violation :
    ∀ (d : EventDoc) (m : String),
      (recheck d = Except.error m ↔ firstFail (checksOf d) = some m) ∧
      (firstFail (checksOf d) = some m ↔
        ∃ pre rest, checksOf d = pre ++ (m, true) :: rest ∧ ∀ p ∈ pre, p.2 = false) ∧
      (recheck d = Except.ok () ↔ ∀ p ∈ checksOf d, p.2 = false) := by
  intro d m
  have key := recheck_eq_firstFail d
  refine ⟨?_, firstFail_some_iff _ m, ?_⟩
  · cases hf : firstFail (checksOf d) with
    | some m' =>
      rw [hf] at key
      rw [key]
      constructor
      · intro h
        injection h with h
        rw [h]
      · intro h
        injection h with h
        rw [h]
    | none =>
      rw [hf] at key
      rw [key]
      constructor
      · intro h
        exact absurd h (by simp)
      · intro h
        exact absurd h (by simp)
  · cases hf : firstFail (checksOf d) with
    | some m' =>
      rw [hf] at key
      rw [key]
      constructor
      · intro h
        exact absurd h (by simp)
      · intro hall
        have := (firstFail_none_iff (checksOf d)).mpr hall
        rw [hf] at this
        exact absurd this (by simp)
    | none =>
      rw [hf] at key
      rw [key]
      simp only [true_iff]
      exact (firstFail_none_iff (checksOf d)).mp hf

/-- C5 witness: a record violating both the overview check and both
array checks reports exactly the first violated check in the declared
order, the overview field. -/
theorem recheck_first_violation_witness :
    firstFail (checksOf
      { title := "T", slug := "t", description := "d", overview := "  ",
        image := "i", venue := "v", location := "l", date := "2026-03-05",
        time := "09:00", mode := "m", audience := "a", organizer := "g",
        agenda := [], tags := [] }) = some (requiredErrMsg "overview") :=
  ((recheck_first_violation
      { title := "T", slug := "t", description := "d", overview := "  ",
        image := "i", venue := "v", location := "l", date := "2026-03-05",
        time := "09:00", mode := "m", audience := "a", organizer := "g",
        agenda := [], tags := [] } (requiredErrMsg "overview")).1).mp rfl

/-- Inversion of a successful Except bind. -/
theorem except_bind_ok {α β : Type} {x : Except String α} {f : α → Except String β}
    {b : β} (h : x >>= f = Except.ok b) : ∃ a, x = Except.ok a ∧ f a = Except.ok b := by
  cases x with
  | error e =>
    simp only [bind, Except.bind] at h
    exact absurd h (by simp)
  | ok a =>
    simp only [bind, Except.bind] at h
    exact ⟨a, rfl, h⟩

/-- C4: during event creation the pre-save hook trims every agenda and
tags element and drops the empty results, and this cleanup precedes the
non-empty-array check: every successfully saved document carries
exactly the cleaned arrays; an otherwise-valid event with agenda
`["  ", "Talk 1"]` is accepted with agenda normalized to `["Talk 1"]`;
the same event with agenda `["  "]` is rejected with the empty-agenda
error rather than silently accepted. -/
theorem preSave_array_cleanup :
    (∀ (parse : String → Option Int) (e : EventInput) (d : EventDoc),
      preSaveNew parse e = Except.ok d →
      d.agenda = cleanArr e.agenda ∧ d.tags = cleanArr e.tags) ∧
    cleanArr ["  ", "Talk 1"] = ["Talk 1"] ∧
    preSaveNew sampleParse (sampleEvent ["  ", "Talk 1"]) =
      Except.ok
        { title := "Cloud Next 2026", slug := "cloud-next-2026",
          description := "desc", overview := "ov", image := "img",
          venue := "ven", location := "loc", date := "2026-03-05",
          time := "09:00", mode := "hybrid", audience := "devs",
          organizer := "org", agenda := ["Talk 1"], tags := ["cloud"] } ∧
    preSaveNew sampleParse (sampleEvent ["  "]) = Except.error agendaErrMsg := by
  refine ⟨?_, rfl, rfl, rfl⟩
  intro parse e d h
  simp only [preSaveNew] at h
  obtain ⟨dt, hdt, h⟩ := except_bind_ok h
  obtain ⟨tm, htm, h⟩ := except_bind_ok h
  obtain ⟨u, hu, h⟩ := except_bind_ok h
  simp only [pure, Except.pure] at h
  injection h with h
  rw [← h]
  exact ⟨rfl, rfl⟩

/-- C4 witness: the general cleanup equation instantiated at the
accepted concrete example. -/
theorem preSave_array_cleanup_witness :
    ({ title := "Cloud Next 2026", slug := "cloud-next-2026",
       description := "desc", overview := "ov", image := "img",
       venue := "ven", location := "loc", date := "2026-03-05",
       time := "09:00", mode := "hybrid", audience := "devs",
       organizer := "org", agenda := ["Talk 1"],
       tags := ["cloud"] } : EventDoc).agenda =
      cleanArr (sampleEvent ["  ", "Talk 1"]).agenda ∧
    ({ title := "Cloud Next 2026", slug := "cloud-next-2026",
       description := "desc", overview := "ov", image := "img",
       venue := "ven", location := "loc", date := "2026-03-05",
       time := "09:00", mode := "hybrid", audience := "devs",
       organizer := "org", agenda := ["Talk 1"],
       tags := ["cloud"] } : EventDoc).tags =
      cleanArr (sampleEvent ["  ", "Talk 1"]).tags :=
  preSave_array_cleanup.1 sampleParse (sampleEvent ["  ", "Talk 1"]) _ rfl

/-- String append is associative. -/
theorem strAppendAssoc : ∀ (a b c : String), (a ++ b) ++ c = a ++ (b ++ c) := by
  intro a b c
  obtain ⟨la⟩ := a
  obtain ⟨lb⟩ := b
  obtain ⟨lc⟩ := c
  show String.mk ((la ++ lb) ++ lc) = String.mk (la ++ (lb ++ lc))
  rw [List.append_assoc]

/-- C1: normalizeTime, on the trimmed lowercased input, accepts exactly
the colon shape (hour in [0,23], minute in [0,59], seconds ignored) and
then the am/pm shape (hour in [1,12], pm adding 12 unless the hour is
12, am mapping 12 to 0, minute 00), failing on everything else; every
success is a zero-padded `HH:MM` string; and the concrete examples of
the specification hold. -/
theorem normalizeTime_shapes :
    ∀ (s : String),
      (∀ h m, colonMatch ((jsTrim s).toList.map Char.toLower) = some (h, m) →
        (h ≤ 23 ∧ m ≤ 59 →
          normalizeTime s = Except.ok (pad2 h ++ ":" ++ pad2 m)) ∧
        (¬(h ≤ 23 ∧ m ≤ 59) →
          normalizeTime s = Except.error "Invalid time value")) ∧
      (∀ h pm, colonMatch ((jsTrim s).toList.map Char.toLower) = none →
        ampmMatch ((jsTrim s).toList.map Char.toLower) = some (h, pm) →
        (1 ≤ h ∧ h ≤ 12 →
          normalizeTime s = Except.ok
            (pad2 (if pm ∧ h ≠ 12 then h + 12 else if ¬ pm ∧ h = 12 then 0 else h) ++
              ":00")) ∧
        (¬(1 ≤ h ∧ h ≤ 12) →
          normalizeTime s = Except.error "Invalid time hour")) ∧
      (colonMatch ((jsTrim s).toList.map Char.toLower) = none →
        ampmMatch ((jsTrim s).toList.map Char.toLower) = none →
        normalizeTime s = Except.error "Invalid time format") ∧
      (∀ r, normalizeTime s = Except.ok r →
        ∃ h m, h ≤ 23 ∧ m ≤ 59 ∧ r = pad2 h ++ ":" ++ pad2 m) ∧
      (normalizeTime "9:30" = Except.ok "09:30" ∧
       normalizeTime "9am" = Except.ok "09:00" ∧
       normalizeTime "12am" = Except.ok "00:00" ∧
       normalizeTime "12pm" = Except.ok "12:00" ∧
       normalizeTime "25:00" = Except.error "Invalid time value" ∧
       normalizeTime "13pm" = Except.error "Invalid time hour") := by
  intro s
  refine ⟨?_, ?_, ?_, ?_, rfl, rfl, rfl, rfl, rfl, rfl⟩
  · intro h m hc
    constructor
    · intro hb
      simp only [normalizeTime, hc]
      rw [if_neg (by omega)]
    · intro hb
      simp only [normalizeTime, hc]
      rw [if_pos (by omega)]
  · intro h pm hc ha
    constructor
    · intro hb
      simp only [normalizeTime, hc, ha]
      rw [if_neg (by omega)]
    · intro hb
      simp only [normalizeTime, hc, ha]
      rw [if_pos (by omega)]
  · intro hc ha
    simp only [normalizeTime, hc, ha]
  · intro r hr
    cases hc : colonMatch ((jsTrim s).toList.map Char.toLower) with
    | some hm =>
      obtain ⟨h, m⟩ := hm
      simp only [normalizeTime, hc] at hr
      by_cases hb : h > 23 ∨ m > 59
      · rw [if_pos hb] at hr
        exact absurd hr (by simp)
      · rw [if_neg hb] at hr
        injection hr with hr
        exact ⟨h, m, by omega, by omega, hr.symm⟩
    | none =>
      cases ha : ampmMatch ((jsTrim s).toList.map Char.toLower) with
      | none =>
        simp only [normalizeTime, hc, ha] at hr
        exact absurd hr (by simp)
      | some hpm =>
        obtain ⟨h, pm⟩ := hpm
        simp only [normalizeTime, hc, ha] at hr
        by_cases hb : h < 1 ∨ h > 12
        · rw [if_pos hb] at hr
          exact absurd hr (by simp)
        · rw [if_neg hb] at hr
          injection hr with hr
          refine ⟨if pm ∧ h ≠ 12 then h + 12 else if ¬ pm ∧ h = 12 then 0 else h,
            0, ?_, by omega, ?_⟩
          · by_cases h1 : pm ∧ h ≠ 12
            · rw [if_pos h1]
              omega
            · rw [if_neg h1]
              by_cases h2 : ¬ pm ∧ h = 12
              · rw [if_pos h2]
                omega
              · rw [if_neg h2]
                omega
          · rw [← hr, strAppendAssoc]
            rfl

/-- C1 witness: a successful normalization instantiating the
output-shape clause at a concrete input. -/
theorem normalizeTime_shapes_witness :
    ∃ h m, h ≤ 23 ∧ m ≤ 59 ∧ ("19:00" : String) = pad2 h ++ ":" ++ pad2 m :=
  (normalizeTime_shapes "7 pm").2.2.2.1 "19:00" rfl

/-- Alphanumerics are not hyphens. -/
theorem okChar_ne_hyph {c : Char} (h : okChar c = true) : c ≠ '-' := by
  intro hc
  subst hc
  exact absurd h (by decide)

/-- Character order transfers to code points. -/
theorem char_toNat_le {a b : Char} (h : a ≤ b) : a.toNat ≤ b.toNat :=
  BitVec.le_def.mp (UInt32.le_def.mp (Char.le_def.mp h))

/-- Slug characters are fixed by lowercasing. -/
theorem okChar_toLower {c : Char} (h : okChar c = true ∨ c = '-') :
    c.toLower = c := by
  rcases h with h | rfl
  · simp only [okChar, decide_eq_true_eq] at h
    show (if 65 ≤ c.toNat ∧ c.toNat ≤ 90 then Char.ofNat (c.toNat + 32) else c) = c
    rcases h with ⟨h1, -⟩ | ⟨-, h2⟩
    · have hle := char_toNat_le h1
      have ha : ('a').toNat = 97 := rfl
      rw [if_neg (by omega)]
    · have hle := char_toNat_le h2
      have h9 : ('9').toNat = 57 := rfl
      rw [if_neg (by omega)]
  · rfl

/-- Every character the run-replacement emits is alphanumeric or a
hyphen. -/
theorem squashAux_chars :
    ∀ (l : List Char) (b : Bool) (c : Char),
      c ∈ squashAux b l → okChar c = true ∨ c = '-' := by
  intro l
  induction l with
  | nil =>
    intro b c hc
    simp [squashAux] at hc
  | cons a l ih =>
    intro b c hc
    by_cases ha : okChar a = true
    · rw [squashAux, if_pos ha] at hc
      rcases List.mem_cons.mp hc with rfl | hc
      · exact Or.inl ha
      · exact ih false c hc
    · rw [squashAux, if_neg ha] at hc
      cases b with
      | true =>
        rw [if_pos rfl] at hc
        exact ih true c hc
      | false =>
        rw [if_neg (by simp)] at hc
        rcases List.mem_cons.mp hc with rfl | hc
        · exact Or.inr rfl
        · exact ih true c hc

/-- Prepending keeps a list double-hyphen-free when the new head and
the old head do not form a hyphen pair. -/
theorem noDub_cons {a : Char} {l : List Char}
    (h : a ≠ '-' ∨ headNotHyph l = true) (hl : noDub l = true) :
    noDub (a :: l) = true := by
  cases l with
  | nil => rfl
  | cons b t =>
    have hb : ¬(a = '-' ∧ b = '-') := by
      rcases h with h | h
      · intro hab
        exact h hab.1
      · intro hab
        simp only [headNotHyph, decide_eq_true_eq] at h
        exact h hab.2
    simp only [noDub, Bool.and_eq_true, Bool.not_eq_true', decide_eq_false_iff_not]
    exact ⟨hb, hl⟩

/-- Inside a run the replacement never emits a leading hyphen: the next
emitted character, if any, is alphanumeric. -/
theorem squashAux_true_headNotHyph :
    ∀ (l : List Char), headNotHyph (squashAux true l) = true := by
  intro l
  induction l with
  | nil => rfl
  | cons a l ih =>
    by_cases ha : okChar a = true
    · rw [squashAux, if_pos ha]
      simpa [headNotHyph] using okChar_ne_hyph ha
    · rw [squashAux, if_neg ha, if_pos rfl]
      exact ih

/-- The run-replacement never produces two adjacent hyphens. -/
theorem squashAux_noDub :
    ∀ (l : List Char) (b : Bool), noDub (squashAux b l) = true := by
  intro l
  induction l with
  | nil =>
    intro b
    rfl
  | cons a l ih =>
    intro b
    by_cases ha : okChar a = true
    · rw [squashAux, if_pos ha]
      exact noDub_cons (Or.inl (okChar_ne_hyph ha)) (ih false)
    · rw [squashAux, if_neg ha]
      cases b with
      | true =>
        rw [if_pos rfl]
        exact ih true
      | false =>
        rw [if_neg (by simp)]
        exact noDub_cons (Or.inr (squashAux_true_headNotHyph l)) (ih true)

/-- Double-hyphen freedom restricts to the tail. -/
theorem noDub_tail {a : Char} {l : List Char} (h : noDub (a :: l) = true) :
    noDub l = true := by
  cases l with
  | nil => rfl
  | cons b t =>
    simp only [noDub, Bool.and_eq_true] at h
    exact h.2

/-- Double-hyphen freedom restricts to a suffix. -/
theorem noDub_append_right :
    ∀ (l1 l2 : List Char), noDub (l1 ++ l2) = true → noDub l2 = true := by
  intro l1
  induction l1 with
  | nil =>
    intro l2 h
    simpa using h
  | cons a l1 ih =>
    intro l2 h
    rw [List.cons_append] at h
    exact ih l2 (noDub_tail h)

/-- Double-hyphen freedom restricts to a prefix. -/
theorem noDub_append_left :
    ∀ (l1 l2 : List Char), noDub (l1 ++ l2) = true → noDub l1 = true := by
  intro l1
  induction l1 with
  | nil =>
    intro l2 _
    rfl
  | cons a l1 ih =>
    intro l2 h
    rw [List.cons_append] at h
    cases l1 with
    | nil => rfl
    | cons b t =>
      rw [List.cons_append] at h
      simp only [noDub, Bool.and_eq_true] at h ⊢
      refine ⟨h.1, ?_⟩
      have := ih l2 (by rw [List.cons_append]; exact h.2)
      exact this

/-- Collapsing doubled hyphens is the identity on a double-hyphen-free
list. -/
theorem collapse_eq_of_noDub :
    ∀ (l : List Char), noDub l = true → collapse l = l := by
  intro l
  induction l with
  | nil =>
    intro _
    rfl
  | cons a t ih =>
    intro h
    cases t with
    | nil => rfl
    | cons b t2 =>
      have hb : ¬(a = '-' ∧ b = '-') := by
        simp only [noDub, Bool.and_eq_true, Bool.not_eq_true',
          decide_eq_false_iff_not] at h
        exact h.1
      rw [collapse, if_neg hb, ih (noDub_tail h)]

/-- Dropping leading hyphens leaves a list that does not start with a
hyphen. -/
theorem dropWhile_hyph_headNot :
    ∀ (l : List Char), headNotHyph (l.dropWhile (fun c => c = '-')) = true := by
  intro l
  induction l with
  | nil => rfl
  | cons a t ih =>
    by_cases ha : a = '-'
    · rw [List.dropWhile_cons_of_pos (by simp [ha])]
      exact ih
    · rw [List.dropWhile_cons_of_neg (by simp [ha])]
      simpa [headNotHyph] using ha

/-- Stripping edge hyphens from a double-hyphen-free list leaves a
double-hyphen-free list with no hyphen at either end, made of
characters of the original list. -/
theorem dropEdgeHyphens_wf :
    ∀ (l : List Char), noDub l = true →
      noDub (dropEdgeHyphens l) = true ∧
      headNotHyph (dropEdgeHyphens l) = true ∧
      headNotHyph (dropEdgeHyphens l).reverse = true ∧
      (∀ c ∈ dropEdgeHyphens l, c ∈ l) := by
  intro l hnd
  obtain ⟨t1, ht1⟩ := List.dropWhile_suffix (l := l) (fun c => c = '-')
  obtain ⟨t2, ht2⟩ :=
    List.dropWhile_suffix (l := (l.dropWhile (fun c => c = '-')).reverse)
      (fun c => c = '-')
  have h1nd : noDub (l.dropWhile (fun c => c = '-')) = true :=
    noDub_append_right t1 _ (by rw [ht1]; exact hnd)
  have hs1eq : l.dropWhile (fun c => c = '-') =
      dropEdgeHyphens l ++ t2.reverse := by
    have := congrArg List.reverse ht2
    rw [List.reverse_append, List.reverse_reverse] at this
    rw [← this]
    rfl
  refine ⟨?_, ?_, ?_, ?_⟩
  · exact noDub_append_left _ _ (by rw [← hs1eq]; exact h1nd)
  · cases hdr : dropEdgeHyphens l with
    | nil => rfl
    | cons c cs =>
      have hhead := dropWhile_hyph_headNot l
      rw [hs1eq, hdr, List.cons_append] at hhead
      simpa [headNotHyph] using hhead
  · show headNotHyph (((l.dropWhile (fun c => c = '-')).reverse.dropWhile
      (fun c => c = '-')).reverse).reverse = true
    rw [List.reverse_reverse]
    exact dropWhile_hyph_headNot _
  · intro c hc
    have hc1 : c ∈ l.dropWhile (fun c => c = '-') := by
      rw [hs1eq]
      exact List.mem_append_left _ hc
    rw [← ht1]
    exact List.mem_append_right _ hc1

/-- C3: for every title string the derived slug is made only of
lowercase alphanumerics and hyphens (each of its characters is fixed by
lowercasing), and it has no doubled hyphen, no leading hyphen, and no
trailing hyphen. -/
theorem slugify_wellformed :
    ∀ (s : String),
      (∀ c ∈ (slugify s).toList, okChar c = true ∨ c = '-') ∧
      (∀ c ∈ (slugify s).toList, c.toLower = c) ∧
      noDub (slugify s).toList = true ∧
      headNotHyph (slugify s).toList = true ∧
      headNotHyph (slugify s).toList.reverse = true := by
  intro s
  have hsq : noDub (squashRuns
      (jsTrim (String.mk (s.toList.map Char.toLower))).toList) = true :=
    squashAux_noDub _ false
  obtain ⟨hnd, hhead, htail, hmem⟩ := dropEdgeHyphens_wf _ hsq
  have hcol : collapse (dropEdgeHyphens (squashRuns
      (jsTrim (String.mk (s.toList.map Char.toLower))).toList)) =
      dropEdgeHyphens (squashRuns
        (jsTrim (String.mk (s.toList.map Char.toLower))).toList) :=
    collapse_eq_of_noDub _ hnd
  have hout : (slugify s).toList = dropEdgeHyphens (squashRuns
      (jsTrim (String.mk (s.toList.map Char.toLower))).toList) := by
    show collapse (dropEdgeHyphens (squashRuns
      (jsTrim (String.mk (s.toList.map Char.toLower))).toList)) = _
    exact hcol
  rw [hout]
  have hchars : ∀ c ∈ dropEdgeHyphens (squashRuns
      (jsTrim (String.mk (s.toList.map Char.toLower))).toList),
      okChar c = true ∨ c = '-' := by
    intro c hc
    exact squashAux_chars _ false c (hmem c hc)
  exact ⟨hchars, fun c hc => okChar_toLower (hchars c hc), hnd, hhead, htail⟩

/-- C3 witness: the slug of a punctuated title instantiates the
charset clause at a concrete character. -/
theorem slugify_wellformed_witness :
    okChar 'h' = true ∨ 'h' = '-' :=
  (slugify_wellformed "Hello, World!").1 'h' (by decide)

end EventApp
